import Mathlib

/-!
Verification model of the slate static site generator (src/main.go).

Go byte slices and strings are modelled as `List Char` (one `Char` per byte;
all inputs of interest are ASCII).  Fallible code is modelled with `Option`:
a Go runtime panic (index out of range) is modelled as `none`.
External collaborators (the goldmark Markdown engine, the yaml.v3 decoder,
Go standard library primitives) are modelled as explicit Lean functions,
documented at their definition sites.
-/

namespace Slate

/-- Go byte slices / strings, one `Char` per byte. -/
abbrev Bytes := List Char

/-- Models Go strings.HasPrefix(s, pre) / bytes.HasPrefix. -/
def goHasPrefix (s pre : Bytes) : Bool := decide (pre <+: s)

/-- Models Go strings.HasSuffix(s, suf). -/
def goHasSuffix (s suf : Bytes) : Bool := decide (suf <:+ s)

/-- Models Go bytes.Index(s, pat): index of the leftmost occurrence of pat
in s; Go returns -1 when absent, modelled as `none`. -/
def bytesIndex (s pat : Bytes) : Option Nat :=
  if pat <+: s then some 0
  else
    match s with
    | [] => none
    | _ :: t => (bytesIndex t pat).map (· + 1)

/-- Models Go strings.Contains(s, pat). -/
def goContains (s pat : Bytes) : Bool := (bytesIndex s pat).isSome

/-- Models Go strings.TrimPrefix(s, pre). -/
def goTrimStart (s pre : Bytes) : Bytes :=
  if pre <+: s then s.drop pre.length else s

/-- Models Go strings.TrimSuffix(s, suf). -/
def goTrimEnd (s suf : Bytes) : Bytes :=
  if suf <:+ s then s.take (s.length - suf.length) else s

/-- Models Go strings.ToLower for ASCII input. -/
def goToLower (s : Bytes) : Bytes := s.map Char.toLower

/-- A calendar date as produced by Go time.Parse with layout 2006-01-02:
year, month, day (always midnight UTC, so comparison of the produced
time.Time values is lexicographic comparison of these fields). -/
structure SimpleDate where
  year : Nat
  month : Nat
  day : Nat
deriving DecidableEq

/-- The Go zero time.Time value: January 1, year 1. -/
def zeroDate : SimpleDate := ⟨1, 1, 1⟩

/-- Strict chronological order on dates (all at midnight UTC). -/
def dateLt (d e : SimpleDate) : Prop :=
  d.year < e.year ∨
    (d.year = e.year ∧
      (d.month < e.month ∨ (d.month = e.month ∧ d.day < e.day)))

instance (d e : SimpleDate) : Decidable (dateLt d e) := by
  unfold dateLt
  infer_instance

/-- Models Go t.After(u) on the time.Time values of the model: true iff
d is strictly later than e. -/
def dateAfter (d e : SimpleDate) : Bool := decide (dateLt e d)

/-- The frontmatter record of src/main.go (string-valued title and date). -/
structure Frontmatter where
  title : Bytes
  date : Bytes
deriving DecidableEq

/-- The empty (zero value) frontmatter. -/
def emptyFm : Frontmatter := ⟨[], []⟩

/-- Splits on newline characters, modelling line structure of the yaml block. -/
def splitLines (s : Bytes) : List Bytes :=
  match s with
  | [] => [[]]
  | '\n' :: t => [] :: splitLines t
  | c :: t =>
    match splitLines t with
    | [] => [[c]]
    | l :: ls => (c :: l) :: ls

/-- Drops leading and trailing spaces. -/
def trimSpaces (s : Bytes) : Bytes :=
  ((s.dropWhile (· = ' ')).reverse.dropWhile (· = ' ')).reverse

/-- Splits a line at its first colon, `none` when the line has no colon. -/
def splitColon (line : Bytes) : Option (Bytes × Bytes) :=
  match line with
  | [] => none
  | ':' :: t => some ([], t)
  | c :: t => (splitColon t).map (fun kv => (c :: kv.1, kv.2))

/-- Assigns one key-value pair into a frontmatter record; unknown keys are
ignored. -/
def yamlAssign (fm : Frontmatter) (key val : Bytes) : Frontmatter :=
  if key = ("title".toList) then ⟨val, fm.date⟩
  else if key = ("date".toList) then ⟨fm.title, val⟩
  else fm

/-- Line-by-line decode loop for `yamlDecode`. -/
def yamlDecodeAux : List Bytes → Frontmatter → Option Frontmatter
  | [], fm => some fm
  | line :: rest, fm =>
    if trimSpaces line = [] then yamlDecodeAux rest fm
    else
      match splitColon line with
      | none => none
      | some kv => yamlDecodeAux rest (yamlAssign fm (trimSpaces kv.1) (trimSpaces kv.2))

/-- Models the external yaml.v3 Unmarshal of the metadata block into the
frontmatter struct (an external collaborator whose code is not part of this
repository).  Modelled from the spec: decode the block as simple key-value
text (title: ..., date: ...), ignoring unknown keys; a malformed block (a
nonempty line with no colon) is a decode failure, returned as `none`. -/
def yamlDecode (s : Bytes) : Option Frontmatter :=
  yamlDecodeAux (splitLines s) emptyFm

/-- The three-character frontmatter delimiter of parseFrontmatter. -/
def fmDelim : Bytes := ['-', '-', '-']

/-- The closing-delimiter search pattern of parseFrontmatter: a newline
followed by the delimiter. -/
def closeDelim : Bytes := ['\n', '-', '-', '-']

/-- Strips one leading newline if present: the guarded
"if len > 0 and first byte is a newline, drop it" step of
parseFrontmatter. -/
def stripLeadNL : Bytes → Bytes
  | '\n' :: t => t
  | m => m

/-- Models parseFrontmatter (src/main.go lines 340-371).  Returns the
decoded frontmatter and the remaining body.  Go ignores the error returned
by yaml.Unmarshal, leaving the struct at its zero value on failure, which
is modelled by `getD emptyFm`.  The Go code reads `yamlContent[0]` without
a length guard; on an empty metadata block this is an index-out-of-range
panic, modelled as `none`. -/
def parseFrontmatter (content : Bytes) : Option (Frontmatter × Bytes) :=
  if !(goHasPrefix content fmDelim) then
    some (emptyFm, content)
  else
    match bytesIndex (content.drop 3) closeDelim with
    | none => some (emptyFm, content)
    | some endIndex =>
      match (content.drop 3).take endIndex with
      | [] => none
      | c :: cs =>
        let fm := (yamlDecode (if c = '\n' then cs else c :: cs)).getD emptyFm
        some (fm, stripLeadNL ((content.drop 3).drop (endIndex + 4)))

/-- Numeric value of a list of decimal digit characters. -/
def digitsToNat (s : Bytes) : Nat :=
  s.foldl (fun acc c => acc * 10 + (c.toNat - '0'.toNat)) 0

/-- True on the leap years of the proleptic Gregorian calendar. -/
def isLeapYear (y : Nat) : Bool :=
  y % 4 = 0 && (y % 100 ≠ 0 || y % 400 = 0)

/-- Number of days of month m in year y. -/
def daysIn (y m : Nat) : Nat :=
  if m = 2 then (if isLeapYear y then 29 else 28)
  else if m = 4 ∨ m = 6 ∨ m = 9 ∨ m = 11 then 30
  else 31

/-- Models the external Go time.Parse with layout 2006-01-02: exactly four
digits, a dash, two digits, a dash, two digits; the month and the day must
be in range for the calendar.  Go returns the zero time.Time plus an error
on failure; the failure is modelled as `none`. -/
def parseDate (s : Bytes) : Option SimpleDate :=
  match s with
  | [y1, y2, y3, y4, '-', m1, m2, '-', d1, d2] =>
    if ([y1, y2, y3, y4, m1, m2, d1, d2].all Char.isDigit) then
      let y := digitsToNat [y1, y2, y3, y4]
      let m := digitsToNat [m1, m2]
      let d := digitsToNat [d1, d2]
      if 1 ≤ m ∧ m ≤ 12 ∧ 1 ≤ d ∧ d ≤ daysIn y m then some ⟨y, m, d⟩ else none
    else none
  | _ => none

/-- Models Go filepath.Base for slash-separated paths: strip trailing
slashes, then keep the part after the last remaining slash. -/
def baseName (p : Bytes) : Bytes :=
  let q := (p.reverse.dropWhile (· = '/')).reverse
  if q = [] then (if p = [] then ['.'] else ['/'])
  else (q.reverse.takeWhile (· ≠ '/')).reverse

/-- Models the ASCII part of Go strings.isSeparator: everything except
letters, digits and underscore separates words. -/
def isSeparatorGo (c : Char) : Bool :=
  !(c.isDigit || ('a' ≤ c && c ≤ 'z') || ('A' ≤ c && c ≤ 'Z') || c = '_')

/-- Word-state loop for `stringsTitle`, carrying the previous character. -/
def titleCaseAux : Char → Bytes → Bytes
  | _, [] => []
  | prev, c :: t =>
    (if isSeparatorGo prev then c.toUpper else c) :: titleCaseAux c t

/-- Models Go strings.Title on ASCII input: uppercase every letter that
follows a separator (the previous character starts out as a space). -/
def stringsTitle (s : Bytes) : Bytes := titleCaseAux ' ' s

/-- The literal ".md" extension. -/
def mdExt : Bytes := ['.', 'm', 'd']

/-- The literal ".html" extension. -/
def htmlExt : Bytes := ['.', 'h', 't', 'm', 'l']

/-- The literal "content" root prefix. -/
def contentRoot : Bytes := ['c', 'o', 'n', 't', 'e', 'n', 't']

/-- Models extractTitle (src/main.go lines 317-326): base name without the
".md" extension, underscores and hyphens replaced by spaces, title-cased. -/
def extractTitle (path : Bytes) : Bytes :=
  let nm := goTrimEnd (baseName path) mdExt
  let nm := nm.map (fun c => if c = '_' then ' ' else c)
  let nm := nm.map (fun c => if c = '-' then ' ' else c)
  stringsTitle nm

/-- Models pathToURL (src/main.go lines 330-335): remove the "content"
path start, swap a trailing ".md" for ".html". -/
def pathToURL (path : Bytes) : Bytes :=
  let url := goTrimStart path contentRoot
  goTrimEnd url mdExt ++ htmlExt

/-- The Page record of src/main.go.  Content holds the converted HTML. -/
structure Page where
  Path : Bytes
  URL : Bytes
  Title : Bytes
  Date : SimpleDate
  Content : Bytes
deriving DecidableEq

/-- A placeholder page used as the default element for index accesses of
the sorting model (Go never reads out of bounds there). -/
def blankPage : Page := ⟨[], [], [], zeroDate, []⟩

/-- Models the per-file body of generateHtml (src/main.go lines 251-285)
on one already-read file.  convert stands for the external goldmark
Markdown engine (a black box from body bytes to HTML bytes).  Returns
`none` when parseFrontmatter panics.  Go ignores the error of time.Parse,
keeping the zero time.Time, modelled by `getD zeroDate`. -/
def mkPage (convert : Bytes → Bytes) (file content : Bytes) : Option Page :=
  (parseFrontmatter content).map (fun fmmd =>
    let title := if fmmd.1.title = [] then extractTitle file else fmmd.1.title
    let date := if fmmd.1.date = [] then zeroDate else (parseDate fmmd.1.date).getD zeroDate
    ⟨file, pathToURL file, title, date, convert fmmd.2⟩)

/-- Models generateHtml (src/main.go lines 249-287) over the list of
(path, file bytes) pairs produced by discovery and reading. -/
def generateHtml (convert : Bytes → Bytes) : List (Bytes × Bytes) → Option (List Page)
  | [] => some []
  | (f, c) :: rest =>
    match mkPage convert f c with
    | none => none
    | some p => (generateHtml convert rest).map (p :: ·)

/-- The literal "index.md" suffix used by the home-page test of build. -/
def indexMdSuffix : Bytes := ['i', 'n', 'd', 'e', 'x', '.', 'm', 'd']

/-- The literal "/blog/" segment used by the blog-post test of build. -/
def blogSegment : Bytes := ['/', 'b', 'l', 'o', 'g', '/']

/-- The fixed home URL "/index.html" assigned by build. -/
def rootIndexURL : Bytes := ['/', 'i', 'n', 'd', 'e', 'x', '.', 'h', 't', 'm', 'l']

/-- Models the home-page selection loop of build (src/main.go lines
166-172): homePage points at the last page whose path ends in "index.md". -/
def classifyHome (pages : List Page) : Option Page :=
  pages.foldl (fun acc p => if goHasSuffix p.Path indexMdSuffix then some p else acc) none

/-- Models the blog-post selection of the same loop: pages that do not end
in "index.md" and whose path contains "/blog/", in input order. -/
def classifyPosts (pages : List Page) : List Page :=
  pages.filter (fun p => !goHasSuffix p.Path indexMdSuffix && goContains p.Path blogSegment)

/-- A page with its URL replaced. -/
def setURL (p : Page) (u : Bytes) : Page := ⟨p.Path, u, p.Title, p.Date, p.Content⟩

/-- Models build lines 179-181: the selected home page with its URL
overridden to "/index.html". -/
def buildHomePage (pages : List Page) : Option Page :=
  (classifyHome pages).map (fun p => setURL p rootIndexURL)

/-- An abstract directory tree for the discovery walk: files, and
directories whose listing either succeeds (ok = true) or fails with an
access error (ok = false).  filepath.WalkDir never opens regular files, so
files carry no error flag; a directory with ok = false models an entry the
walker cannot access (its ReadDir fails). -/
inductive FsEntry where
  | file (nm : Bytes)
  | dir (nm : Bytes) (ok : Bool) (children : List FsEntry)

/-- The case-insensitive ".md" test of findMarkdownFiles (src/main.go
line 305): strings.HasSuffix(strings.ToLower(path), ".md"). -/
def mdMatch (p : Bytes) : Bool := goHasSuffix (goToLower p) mdExt

mutual

/-- Walk of a single entry under parent, returning the collected markdown
paths and the paths warned about.  Models filepath.WalkDir combined with
the callback of findMarkdownFiles (src/main.go lines 294-310): an entry
whose listing fails is reported to the callback with an error; the
callback prints a warning and returns nil, so the walk continues with the
remaining entries and never returns an error. -/
def walkEntry (parent : Bytes) : FsEntry → List Bytes × List Bytes
  | .file nm =>
    let path := parent ++ '/' :: nm
    (if mdMatch path then [path] else [], [])
  | .dir nm ok children =>
    let path := parent ++ '/' :: nm
    if ok then walkList path children else ([], [path])

/-- Walk of a list of sibling entries, left to right. -/
def walkList (parent : Bytes) : List FsEntry → List Bytes × List Bytes
  | [] => ([], [])
  | e :: es =>
    let r := walkEntry parent e
    let rs := walkList parent es
    (r.1 ++ rs.1, r.2 ++ rs.2)

end

/-- Models findMarkdownFiles (src/main.go lines 290-313) on an abstract
content tree: rootOk models whether the root itself can be accessed.  The
first component is the returned file list (in walk order), the second the
warned paths; the error returned by WalkDir is always nil because the
callback never returns an error, so no error component is needed. -/
def findMarkdownFiles (root : Bytes) (rootOk : Bool) (children : List FsEntry) :
    List Bytes × List Bytes :=
  if rootOk then walkList root children else ([], [root])

/-- Models the I/O skeleton of renderPage (src/main.go lines 209-226):
the three fallible steps (MkdirAll, Create, template Execute) in order;
any failure returns the error (`none`), which build treats as fatal. -/
def renderPage (mkdirOk createOk execOk : Bool) : Option Unit :=
  if !mkdirOk then none
  else if !createOk then none
  else if !execOk then none
  else some ()

/-- Outcome of the static stylesheet copy at the end of build. -/
structure CopyOutcome where
  writeAttempted : Bool
  reported : Bool
  fatal : Bool
deriving DecidableEq

/-- Models the stylesheet copy of build (src/main.go lines 202-206) over
abstract I/O outcomes: when reading static/styles.css succeeds the write
of public/styles.css is attempted with its error discarded and the copy is
reported; nothing on this path is ever a fatal build error.  The result
does not depend on writeOk: that independence is the model of the
discarded os.WriteFile error. -/
def copyStatic (readResult : Option Bytes) (writeOk : Bool) : CopyOutcome :=
  match readResult with
  | some _ => ⟨true, true, false⟩
  | none => ⟨false, false, false⟩

/-!
Model of Go sort.Slice (an external primitive of the Go standard library,
not repository code).  Since Go 1.19 sort.Slice runs the pattern-defeating
quicksort of sort/zsortfunc.go: ranges of at most 12 elements are
insertion-sorted; longer ranges are partitioned around a chosen pivot with
a heapsort fallback.  The functions below transcribe that algorithm over
`List` states: lt is the captured less closure, z the default element of
out-of-range reads (never actually read in bounds-respecting runs), and
positions are Nat indices.  Loops are written with an explicit fuel
counter where Lean needs one; call sites pass fuel that exceeds the
possible number of iterations.
-/

section GoSortModel

variable {α : Type}

/-- data.Less(i, j) of the lessSwap interface. -/
def gsLess (lt : α → α → Bool) (z : α) (l : List α) (i j : Nat) : Bool :=
  lt (l.getD i z) (l.getD j z)

/-- data.Swap(i, j) of the lessSwap interface. -/
def gsSwap (z : α) (l : List α) (i j : Nat) : List α :=
  (l.set i (l.getD j z)).set j (l.getD i z)

/-- Inner shift loop of insertionSort_func: while j > a and Less(j, j-1),
swap j with j-1 and decrement j. -/
def insInner (lt : α → α → Bool) (z : α) (a : Nat) : Nat → List α → List α
  | 0, l => l
  | j + 1, l =>
    if a < j + 1 && gsLess lt z l (j + 1) j then
      insInner lt z a j (gsSwap z l (j + 1) j)
    else l

/-- Outer loop of insertionSort_func: steps iterations starting at index i. -/
def insOuter (lt : α → α → Bool) (z : α) (a : Nat) : Nat → Nat → List α → List α
  | 0, _, l => l
  | s + 1, i, l => insOuter lt z a s (i + 1) (insInner lt z a i l)

/-- insertionSort_func(data, a, b) of sort/zsortfunc.go. -/
def insertionSort (lt : α → α → Bool) (z : α) (a b : Nat) (l : List α) : List α :=
  insOuter lt z a (b - (a + 1)) (a + 1) l

/-- siftDown_func(data, lo, hi, first), fuel-bounded (the root index at
least doubles each iteration, so fuel hi + 1 suffices). -/
def siftDown (lt : α → α → Bool) (z : α) (first hi : Nat) :
    Nat → Nat → List α → List α
  | 0, _, l => l
  | f + 1, root, l =>
    let child := 2 * root + 1
    if hi ≤ child then l
    else
      let child :=
        if child + 1 < hi && gsLess lt z l (first + child) (first + child + 1) then
          child + 1
        else child
      if !(gsLess lt z l (first + root) (first + child)) then l
      else siftDown lt z first hi f child (gsSwap z l (first + root) (first + child))

/-- Heap-building loop of heapSort_func: roots (hi-1)/2 down to 0. -/
def heapBuild (lt : α → α → Bool) (z : α) (first hi : Nat) : Nat → List α → List α
  | 0, l => l
  | i + 1, l => heapBuild lt z first hi i (siftDown lt z first hi (hi + 1) i l)

/-- Pop loop of heapSort_func: i = hi-1 down to 0, swapping the maximum to
the end and re-sifting. -/
def heapPop (lt : α → α → Bool) (z : α) (first : Nat) : Nat → List α → List α
  | 0, l => l
  | i + 1, l =>
    heapPop lt z first i (siftDown lt z first i (i + 2) 0 (gsSwap z l first (first + i)))

/-- heapSort_func(data, a, b) of sort/zsortfunc.go. -/
def heapSort (lt : α → α → Bool) (z : α) (a b : Nat) (l : List α) : List α :=
  let hi := b - a
  heapPop lt z a hi (heapBuild lt z a hi ((hi - 1) / 2 + 1) l)

/-- reverseRange_func(data, a, b): fuel-bounded two-pointer reversal. -/
def revRange (z : α) : Nat → Nat → Nat → List α → List α
  | 0, _, _, l => l
  | f + 1, i, j, l => if i < j then revRange z f (i + 1) (j - 1) (gsSwap z l i j) else l

/-- order2_func: order two positions by Less, counting performed swaps. -/
def order2 (lt : α → α → Bool) (z : α) (l : List α) (a b swaps : Nat) :
    Nat × Nat × Nat :=
  if gsLess lt z l b a then (b, a, swaps + 1) else (a, b, swaps)

/-- median_func: position of the median of three, counting swaps. -/
def medianPos (lt : α → α → Bool) (z : α) (l : List α) (a b c swaps : Nat) :
    Nat × Nat :=
  let r1 := order2 lt z l a b swaps
  let r2 := order2 lt z l r1.2.1 c r1.2.2
  let r3 := order2 lt z l r1.1 r2.1 r2.2.2
  (r3.2.1, r3.2.2)

/-- medianAdjacent_func: median of data[a-1], data[a], data[a+1]. -/
def medianAdjacent (lt : α → α → Bool) (z : α) (l : List α) (a swaps : Nat) :
    Nat × Nat :=
  medianPos lt z l (a - 1) a (a + 1) swaps

/-- Sorting hints of choosePivot_func: 0 unknown, 1 increasing,
2 decreasing. -/
def increasingHint : Nat := 1

/-- choosePivot_func(data, a, b): returns (pivot, hint).  Uses the median
of three positions at the quarter points, upgraded to medians of adjacent
triples (ninther) for ranges of at least 50 elements. -/
def choosePivot (lt : α → α → Bool) (z : α) (a b : Nat) (l : List α) : Nat × Nat :=
  let len := b - a
  let i := a + len / 4 * 1
  let j := a + len / 4 * 2
  let k := a + len / 4 * 3
  if 8 ≤ len then
    let r :=
      if 50 ≤ len then
        let ri := medianAdjacent lt z l i 0
        let rj := medianAdjacent lt z l j ri.2
        let rk := medianAdjacent lt z l k rj.2
        medianPos lt z l ri.1 rj.1 rk.1 rk.2
      else medianPos lt z l i j k 0
    if r.2 = 0 then (r.1, 1) else if r.2 = 12 then (r.1, 2) else (r.1, 0)
  else (j, 1)

/-- Scan of partition_func advancing i while i <= j and Less(i, a). -/
def partScanI (lt : α → α → Bool) (z : α) (l : List α) (aIdx j : Nat) :
    Nat → Nat → Nat
  | 0, i => i
  | f + 1, i => if i ≤ j && gsLess lt z l i aIdx then partScanI lt z l aIdx j f (i + 1) else i

/-- Scan of partition_func retreating j while i <= j and not Less(j, a). -/
def partScanJ (lt : α → α → Bool) (z : α) (l : List α) (aIdx i : Nat) :
    Nat → Nat → Nat
  | 0, j => j
  | f + 1, j => if i ≤ j && !(gsLess lt z l j aIdx) then partScanJ lt z l aIdx i f (j - 1) else j

/-- Main loop of partition_func after the first swap: scan, swap, repeat;
returns the final j and the state. -/
def partLoop (lt : α → α → Bool) (z : α) (aIdx b : Nat) :
    Nat → Nat → Nat → List α → Nat × List α
  | 0, _, j, l => (j, l)
  | f + 1, i, j, l =>
    let i' := partScanI lt z l aIdx j (b + 2) i
    let j' := partScanJ lt z l aIdx i' (b + 2) j
    if j' < i' then (j', l)
    else partLoop lt z aIdx b f (i' + 1) (j' - 1) (gsSwap z l i' j')

/-- partition_func(data, a, b, pivot): moves the pivot to position a,
partitions the rest, and returns (newpivot, alreadyPartitioned, state). -/
def partitionGo (lt : α → α → Bool) (z : α) (a b pivot : Nat) (l : List α) :
    Nat × Bool × List α :=
  let l := gsSwap z l a pivot
  let i := partScanI lt z l a (b - 1) (b + 2) (a + 1)
  let j := partScanJ lt z l a i (b + 2) (b - 1)
  if j < i then (j, true, gsSwap z l j a)
  else
    let r := partLoop lt z a b (b + 2) (i + 1) (j - 1) (gsSwap z l i j)
    (r.1, false, gsSwap z r.2 r.1 a)

/-- Scan of partitionEqual_func advancing i while i <= j and not
Less(a, i). -/
def partEqScanI (lt : α → α → Bool) (z : α) (l : List α) (aIdx j : Nat) :
    Nat → Nat → Nat
  | 0, i => i
  | f + 1, i =>
    if i ≤ j && !(gsLess lt z l aIdx i) then partEqScanI lt z l aIdx j f (i + 1) else i

/-- Scan of partitionEqual_func retreating j while i <= j and Less(a, j). -/
def partEqScanJ (lt : α → α → Bool) (z : α) (l : List α) (aIdx i : Nat) :
    Nat → Nat → Nat
  | 0, j => j
  | f + 1, j =>
    if i ≤ j && gsLess lt z l aIdx j then partEqScanJ lt z l aIdx i f (j - 1) else j

/-- Loop of partitionEqual_func; returns the final i and the state. -/
def partEqLoop (lt : α → α → Bool) (z : α) (aIdx b : Nat) :
    Nat → Nat → Nat → List α → Nat × List α
  | 0, i, _, l => (i, l)
  | f + 1, i, j, l =>
    let i' := partEqScanI lt z l aIdx j (b + 2) i
    let j' := partEqScanJ lt z l aIdx i' (b + 2) j
    if j' < i' then (i', l)
    else partEqLoop lt z aIdx b f (i' + 1) (j' - 1) (gsSwap z l i' j')

/-- partitionEqual_func(data, a, b, pivot): partitions elements equal to
the pivot to the front, returning (newpivot, state). -/
def partitionEqual (lt : α → α → Bool) (z : α) (a b pivot : Nat) (l : List α) :
    Nat × List α :=
  let l := gsSwap z l a pivot
  let r := partEqLoop lt z a b (b + 2) (a + 1) (b - 1) l
  (r.1, r.2)

/-- Left-shift loop of partialInsertionSort_func: j from i-1 down while
j >= 1 and Less(j, j-1). -/
def pisShiftL (lt : α → α → Bool) (z : α) : Nat → List α → List α
  | 0, l => l
  | j + 1, l =>
    if gsLess lt z l (j + 1) j then pisShiftL lt z j (gsSwap z l (j + 1) j) else l

/-- Right-shift loop of partialInsertionSort_func: j from i+1 up while
j < b and Less(j, j-1). -/
def pisShiftR (lt : α → α → Bool) (z : α) (b : Nat) : Nat → Nat → List α → List α
  | 0, _, l => l
  | f + 1, j, l =>
    if j < b && gsLess lt z l j (j - 1) then
      pisShiftR lt z b f (j + 1) (gsSwap z l j (j - 1))
    else l

/-- Forward scan of partialInsertionSort_func: advance i while i < b and
not Less(i, i-1). -/
def pisScan (lt : α → α → Bool) (z : α) (b : Nat) : Nat → Nat → List α → Nat
  | 0, i, _ => i
  | f + 1, i, l =>
    if i < b && !(gsLess lt z l i (i - 1)) then pisScan lt z b f (i + 1) l else i

/-- partialInsertionSort_func(data, a, b): at most 5 attempts to fix an
almost-sorted range; returns whether the range ended up sorted, plus the
state.  On ranges shorter than 50 it gives up without moving anything. -/
def nearSortedPass (lt : α → α → Bool) (z : α) (a b : Nat) :
    Nat → Nat → List α → Bool × List α
  | 0, _, l => (false, l)
  | s + 1, i, l =>
    let i' := pisScan lt z b (b + 2) i l
    if i' = b then (true, l)
    else if b - a < 50 then (false, l)
    else
      let l := gsSwap z l i' (i' - 1)
      let l := if 2 ≤ i' - a then pisShiftL lt z (i' - 1) l else l
      let l := if 2 ≤ b - i' then pisShiftR lt z b (b + 2) (i' + 1) l else l
      nearSortedPass lt z a b s i' l

/-- The 64-bit xorshift generator of sort/zsortfunc.go, on Nat modulo
2^64. -/
def xorshiftNext (x : Nat) : Nat :=
  let x := (Nat.xor x (Nat.shiftLeft x 13)) % (2 ^ 64)
  let x := Nat.xor x (Nat.shiftRight x 7)
  (Nat.xor x (Nat.shiftLeft x 17)) % (2 ^ 64)

/-- bits.Len of the Go standard library: position of the highest set bit. -/
def bitsLen (n : Nat) : Nat := if n = 0 then 0 else Nat.log2 n + 1

/-- Swap loop of breakPatterns_func, performing 3 pseudo-random swaps. -/
def breakPatternsLoop (z : α) (a len modulus idx : Nat) :
    Nat → Nat → List α → List α
  | 0, _, l => l
  | c + 1, rnd, l =>
    let rnd := xorshiftNext rnd
    let other := Nat.land rnd (modulus - 1)
    let other := if len ≤ other then other - len else other
    breakPatternsLoop z a len modulus (idx + 1) c rnd (gsSwap z l (idx - 1) (a + other))

/-- breakPatterns_func(data, a, b): scrambles three elements around the
middle with a xorshift generator seeded with the length. -/
def breakPatterns (z : α) (a b : Nat) (l : List α) : List α :=
  let len := b - a
  if 8 ≤ len then
    let modulus := 2 ^ bitsLen len
    let idx := a + len / 4 * 2 - 1
    breakPatternsLoop z a len modulus idx 3 len l
  else l

/-- pdqsort_func(data, a, b, limit) of sort/zsortfunc.go, fuel-bounded:
one fuel unit per loop iteration or recursive call, which the range
shrinkage bounds by the range length plus a constant. -/
def pdqsortFuel (lt : α → α → Bool) (z : α) :
    Nat → Nat → Nat → Nat → Bool → Bool → List α → List α
  | 0, _, _, _, _, _, l => l
  | f + 1, a, b, limit, wasBalanced, wasPartitioned, l =>
    let length := b - a
    if length ≤ 12 then insertionSort lt z a b l
    else if limit = 0 then heapSort lt z a b l
    else
      let lim2 := if !wasBalanced then limit - 1 else limit
      let l := if !wasBalanced then breakPatterns z a b l else l
      let ph := choosePivot lt z a b l
      let l := if ph.2 = 2 then revRange z (b + 2) a (b - 1) l else l
      let pivot := if ph.2 = 2 then (b - 1) - (ph.1 - a) else ph.1
      let hint := if ph.2 = 2 then increasingHint else ph.2
      let tryPis :=
        if wasBalanced && wasPartitioned && hint = increasingHint then
          nearSortedPass lt z a b 5 (a + 1) l
        else (false, l)
      if tryPis.1 then tryPis.2
      else
        let l := tryPis.2
        if 0 < a && !(gsLess lt z l (a - 1) pivot) then
          let r := partitionEqual lt z a b pivot l
          pdqsortFuel lt z f r.1 b lim2 wasBalanced wasPartitioned r.2
        else
          let r := partitionGo lt z a b pivot l
          let mid := r.1
          let leftLen := mid - a
          let rightLen := b - mid
          let balanceThreshold := length / 8
          let wasBalanced2 := decide (balanceThreshold ≤ min leftLen rightLen)
          if leftLen < rightLen then
            let l2 := pdqsortFuel lt z f a mid lim2 true true r.2.2
            pdqsortFuel lt z f (mid + 1) b lim2 wasBalanced2 r.2.1 l2
          else
            let l2 := pdqsortFuel lt z f (mid + 1) b lim2 true true r.2.2
            pdqsortFuel lt z f a mid lim2 wasBalanced2 r.2.1 l2

/-- Models Go sort.Slice(x, less): pdqsort over the whole slice with
limit = bits.Len(length).  Fuel length + 8 covers every chain of loop
iterations, each of which strictly shrinks the worked range. -/
def sortSlice (lt : α → α → Bool) (z : α) (xs : List α) : List α :=
  pdqsortFuel lt z (xs.length + 8) 0 xs.length (bitsLen xs.length) true true xs

end GoSortModel

/-- The less closure passed to sort.Slice by build (src/main.go lines
175-177): blogPosts[i].Date.After(blogPosts[j].Date). -/
def postLess (p q : Page) : Bool := dateAfter p.Date q.Date

/-- Models build lines 163-177: the blog posts of the page list, sorted
with sort.Slice under the date-descending comparator. -/
def buildBlogPosts (pages : List Page) : List Page :=
  sortSlice postLess blankPage (classifyPosts pages)


section FunSort

variable {α : Type}

/-- Insertion from the right end into a reversed accumulator. -/
def insRev (lt : α → α → Bool) (x : α) : List α → List α
  | [] => [x]
  | y :: ys => if lt x y then y :: insRev lt x ys else x :: y :: ys

/-- Left-to-right stable insertion sort on a reversed accumulator. -/
def goSortRev (lt : α → α → Bool) : List α → List α → List α
  | acc, [] => acc
  | acc, x :: xs => goSortRev lt (insRev lt x acc) xs

/-- The list-level reading of insertionSort_func on a whole list. -/
def funSort (lt : α → α → Bool) (xs : List α) : List α :=
  (goSortRev lt [] xs).reverse

end FunSort

/-- Path content/blog/<c>.md for a one-letter post name. -/
def blogPath (c : Char) : Bytes := ("content/blog/".toList) ++ c :: (".md".toList)

/-- A bare blog post page with the given name letter and date. -/
def postPage (c : Char) (d : SimpleDate) : Page := ⟨blogPath c, [], [], d, []⟩

/-- The documented sorting example: dates 2024-01-01, absent, 2025-06-01. -/
def examplePosts : List Page :=
  [postPage 'a' ⟨2024, 1, 1⟩, postPage 'b' zeroDate, postPage 'c' ⟨2025, 6, 1⟩]

/-- Thirteen posts: a..l share one date, m has a later date. -/
def tiePosts : List Page :=
  (("abcdefghijkl".toList).map (fun c => postPage c ⟨2024, 1, 5⟩)) ++
    [postPage 'm' ⟨2024, 1, 9⟩]

/-- The output a stable date-descending sort of tiePosts would produce. -/
def tieStable : List Page :=
  postPage 'm' ⟨2024, 1, 9⟩ ::
    (("abcdefghijkl".toList).map (fun c => postPage c ⟨2024, 1, 5⟩))

/-- A page located under the blog directory whose name is index.md. -/
def blogIndexPage : Page := ⟨("content/blog/index.md".toList), [], [], zeroDate, []⟩

/-- A page at the content root whose name merely ends in index.md. -/
def reindexPage : Page := ⟨("content/reindex.md".toList), [], [], zeroDate, []⟩

/-- A page whose path is the index file at the content root. -/
def rootIndexPage : Page := ⟨("content/index.md".toList), [], [], zeroDate, []⟩

/-- The spec-words version of pathToURL used for comparison with the
code: strip the content-root prefix and replace the trailing
(case-insensitively matched) three-character Markdown extension with
".html". -/
def specPathToURL (path : Bytes) : Bytes :=
  let u := goTrimStart path contentRoot
  u.take (u.length - 3) ++ htmlExt

/-- The discovery-matched path content/a.MD with an uppercase extension. -/
def upperMdPath : Bytes := "content/a.MD".toList

section FunSort2

variable {α : Type}

theorem length_insRev (lt : α → α → Bool) (x : α) (l : List α) :
    (insRev lt x l).length = l.length + 1 := by
  induction l with
  | nil => rfl
  | cons y ys ih =>
    simp only [insRev]
    split
    · simp [ih]
    · simp

theorem gsSwap_cons_succ (z : α) (h : α) (t : List α) (i j : Nat) :
    gsSwap z (h :: t) (i + 1) (j + 1) = h :: gsSwap z t i j := by
  simp [gsSwap, List.getD]

theorem gsSwap_adj (z : α) (y x : α) (s : List α) :
    ∀ q : List α, gsSwap z (q ++ y :: x :: s) (q.length + 1) q.length = q ++ x :: y :: s := by
  intro q
  induction q with
  | nil => rfl
  | cons h t ih =>
    have : (h :: t).length + 1 = t.length + 1 + 1 := by simp
    simp only [List.cons_append, List.length_cons, gsSwap_cons_succ, ih]

theorem getD_append_len (z x : α) (s : List α) :
    ∀ q : List α, (q ++ x :: s).getD q.length z = x := by
  intro q
  induction q with
  | nil => rfl
  | cons h t ih => simpa using ih

theorem getD_append_len_succ (z y x : α) (s : List α) :
    ∀ q : List α, (q ++ y :: x :: s).getD (q.length + 1) z = x := by
  intro q
  induction q with
  | nil => rfl
  | cons h t ih => simpa using ih

theorem insInner_eq (lt : α → α → Bool) (z : α) (x : α) :
    ∀ (p s : List α), insInner lt z 0 p.length (p ++ x :: s) =
      (insRev lt x p.reverse).reverse ++ s := by
  intro p
  induction p using List.reverseRecOn with
  | nil => intro s; rfl
  | append_singleton q y ih =>
    intro s
    have hlen : (q ++ [y]).length = q.length + 1 := by simp
    have harr : (q ++ [y]) ++ x :: s = q ++ y :: x :: s := by simp
    rw [hlen, harr]
    have hless : gsLess lt z (q ++ y :: x :: s) (q.length + 1) q.length = lt x y := by
      unfold gsLess
      rw [getD_append_len_succ, getD_append_len]
    by_cases hxy : lt x y = true
    · have h1 : insInner lt z 0 (q.length + 1) (q ++ y :: x :: s) =
          insInner lt z 0 q.length (gsSwap z (q ++ y :: x :: s) (q.length + 1) q.length) := by
        simp [insInner, hless, hxy]
      rw [h1, gsSwap_adj, ih (y :: s)]
      simp [insRev, hxy]
    · simp only [Bool.not_eq_true] at hxy
      simp [insInner, hless, hxy, insRev]

theorem insOuter_eq (lt : α → α → Bool) (z : α) :
    ∀ (rest racc : List α),
      insOuter lt z 0 rest.length racc.reverse.length (racc.reverse ++ rest) =
        (goSortRev lt racc rest).reverse := by
  intro rest
  induction rest with
  | nil => intro racc; simp [insOuter, goSortRev]
  | cons x rest' ih =>
    intro racc
    simp only [List.length_cons, insOuter]
    rw [insInner_eq lt z x racc.reverse rest']
    rw [List.reverse_reverse]
    have hlen : racc.reverse.length + 1 = (insRev lt x racc).reverse.length := by
      simp [length_insRev]
    rw [hlen, ih (insRev lt x racc)]
    rfl

theorem insertionSort_eq_funSort (lt : α → α → Bool) (z : α) (xs : List α) :
    insertionSort lt z 0 xs.length xs = funSort lt xs := by
  cases xs with
  | nil => rfl
  | cons x rest =>
    show insOuter lt z 0 ((rest.length + 1) - 1) 1 (x :: rest) = _
    have h1 : (rest.length + 1) - 1 = rest.length := rfl
    have h2 : (([x] : List α).reverse ++ rest) = x :: rest := by simp
    have h3 : (([x] : List α).reverse).length = 1 := rfl
    rw [h1, ← h2, ← h3, insOuter_eq lt z rest [x]]
    rfl

theorem pdqsortFuel_small (lt : α → α → Bool) (z : α)
    (f a b limit : Nat) (wB wP : Bool) (l : List α) (h : b - a ≤ 12) :
    pdqsortFuel lt z (f + 1) a b limit wB wP l = insertionSort lt z a b l := by
  rw [pdqsortFuel, if_pos h]

theorem sortSlice_small (lt : α → α → Bool) (z : α) (xs : List α)
    (h : xs.length ≤ 12) : sortSlice lt z xs = funSort lt xs := by
  have h8 : xs.length + 8 = (xs.length + 7) + 1 := rfl
  unfold sortSlice
  rw [h8, pdqsortFuel_small lt z (xs.length + 7) 0 xs.length (bitsLen xs.length) true true xs
    (by simpa using h)]
  exact insertionSort_eq_funSort lt z xs

theorem insRev_perm (lt : α → α → Bool) (x : α) (l : List α) :
    List.Perm (insRev lt x l) (x :: l) := by
  induction l with
  | nil => exact List.Perm.refl _
  | cons y ys ih =>
    simp only [insRev]
    split
    · exact (ih.cons y).trans (List.Perm.swap x y ys)
    · exact List.Perm.refl _

theorem goSortRev_perm (lt : α → α → Bool) :
    ∀ (rest acc : List α), List.Perm (goSortRev lt acc rest) (rest ++ acc) := by
  intro rest
  induction rest with
  | nil => intro acc; exact List.Perm.refl _
  | cons x rest' ih =>
    intro acc
    have h1 := ih (insRev lt x acc)
    have h2 : List.Perm (rest' ++ insRev lt x acc) (rest' ++ x :: acc) :=
      List.Perm.append_left rest' (insRev_perm lt x acc)
    exact (h1.trans h2).trans List.perm_middle

theorem funSort_perm (lt : α → α → Bool) (xs : List α) :
    List.Perm (funSort lt xs) xs := by
  have h := goSortRev_perm lt xs []
  simp only [List.append_nil] at h
  exact (List.reverse_perm _).trans h

theorem mem_insRev (lt : α → α → Bool) (x b : α) (l : List α)
    (h : b ∈ insRev lt x l) : b = x ∨ b ∈ l := by
  have := (insRev_perm lt x l).mem_iff.mp h
  simpa using this

theorem insRev_pairwise (lt : α → α → Bool)
    (hasymm : ∀ a b : α, lt a b = true → lt b a = false)
    (hneg : ∀ a b c : α, lt a c = true → lt a b = true ∨ lt b c = true)
    (x : α) (l : List α) (hl : List.Pairwise (fun a b => lt a b = false) l) :
    List.Pairwise (fun a b => lt a b = false) (insRev lt x l) := by
  induction l with
  | nil => simp [insRev]
  | cons y ys ih =>
    rw [List.pairwise_cons] at hl
    simp only [insRev]
    by_cases hxy : lt x y = true
    · rw [if_pos hxy, List.pairwise_cons]
      refine ⟨fun b hb => ?_, ih hl.2⟩
      rcases mem_insRev lt x b ys hb with hbx | hby
      · rw [hbx]; exact hasymm x y hxy
      · exact hl.1 b hby
    · rw [if_neg hxy, List.pairwise_cons]
      simp only [Bool.not_eq_true] at hxy
      refine ⟨fun b hb => ?_, List.pairwise_cons.mpr hl⟩
      rcases List.mem_cons.mp hb with rfl | hbys
      · exact hxy
      · by_cases hxb : lt x b = true
        · rcases hneg x y b hxb with h1 | h2
          · rw [hxy] at h1; exact absurd h1 (by simp)
          · rw [hl.1 b hbys] at h2; exact absurd h2 (by simp)
        · simpa using hxb

theorem goSortRev_pairwise (lt : α → α → Bool)
    (hasymm : ∀ a b : α, lt a b = true → lt b a = false)
    (hneg : ∀ a b c : α, lt a c = true → lt a b = true ∨ lt b c = true) :
    ∀ (rest acc : List α), List.Pairwise (fun a b => lt a b = false) acc →
      List.Pairwise (fun a b => lt a b = false) (goSortRev lt acc rest) := by
  intro rest
  induction rest with
  | nil => intro acc h; exact h
  | cons x rest' ih =>
    intro acc h
    exact ih (insRev lt x acc) (insRev_pairwise lt hasymm hneg x acc h)

theorem funSort_pairwise (lt : α → α → Bool)
    (hasymm : ∀ a b : α, lt a b = true → lt b a = false)
    (hneg : ∀ a b c : α, lt a c = true → lt a b = true ∨ lt b c = true)
    (xs : List α) :
    List.Pairwise (fun a b => lt b a = false) (funSort lt xs) := by
  unfold funSort
  rw [List.pairwise_reverse]
  exact goSortRev_pairwise lt hasymm hneg xs [] List.Pairwise.nil

theorem insRev_filter_neg (lt : α → α → Bool) (P : α → Bool) (x : α)
    (hx : P x = false) (l : List α) :
    (insRev lt x l).filter P = l.filter P := by
  induction l with
  | nil => simp [insRev, hx]
  | cons y ys ih =>
    simp only [insRev]
    split
    · simp only [List.filter_cons, ih]
    · simp [List.filter_cons, hx]

theorem insRev_filter_pos (lt : α → α → Bool) (P : α → Bool) (x : α)
    (hx : P x = true)
    (hkey : ∀ a b : α, P a = true → P b = true → lt a b = false)
    (l : List α) :
    (insRev lt x l).filter P = x :: l.filter P := by
  induction l with
  | nil => simp [insRev, hx]
  | cons y ys ih =>
    simp only [insRev]
    by_cases hxy : lt x y = true
    · rw [if_pos hxy]
      have hy : P y = false := by
        by_cases h : P y = true
        · rw [hkey x y hx h] at hxy; exact absurd hxy (by simp)
        · simpa using h
      simp [List.filter_cons, hy, ih]
    · rw [if_neg hxy]
      simp [List.filter_cons, hx]

theorem goSortRev_filter (lt : α → α → Bool) (P : α → Bool)
    (hkey : ∀ a b : α, P a = true → P b = true → lt a b = false) :
    ∀ (rest acc : List α),
      (goSortRev lt acc rest).filter P = (rest.filter P).reverse ++ acc.filter P := by
  intro rest
  induction rest with
  | nil => intro acc; simp [goSortRev]
  | cons x rest' ih =>
    intro acc
    show (goSortRev lt (insRev lt x acc) rest').filter P = _
    rw [ih (insRev lt x acc)]
    by_cases hx : P x = true
    · rw [insRev_filter_pos lt P x hx hkey acc]
      simp [List.filter_cons, hx]
    · have hx' : P x = false := by simpa using hx
      rw [insRev_filter_neg lt P x hx' acc]
      simp [List.filter_cons, hx']

theorem funSort_filter (lt : α → α → Bool) (P : α → Bool)
    (hkey : ∀ a b : α, P a = true → P b = true → lt a b = false)
    (xs : List α) : (funSort lt xs).filter P = xs.filter P := by
  unfold funSort
  rw [List.filter_reverse, goSortRev_filter lt P hkey xs []]
  simp

end FunSort2

theorem dateLt_asymm (a b : SimpleDate) (h : dateLt a b) : ¬ dateLt b a := by
  unfold dateLt at *
  omega

theorem dateLt_negtrans (a b c : SimpleDate) (h : dateLt a c) :
    dateLt a b ∨ dateLt b c := by
  unfold dateLt at *
  omega

theorem dateLt_irrefl (a : SimpleDate) : ¬ dateLt a a := by
  unfold dateLt
  omega

theorem postLess_asymm (p q : Page) (h : postLess p q = true) :
    postLess q p = false := by
  unfold postLess dateAfter at *
  exact decide_eq_false (dateLt_asymm _ _ (of_decide_eq_true h))

theorem postLess_negtrans (p q r : Page) (h : postLess p r = true) :
    postLess p q = true ∨ postLess q r = true := by
  unfold postLess dateAfter at *
  rcases dateLt_negtrans _ q.Date _ (of_decide_eq_true h) with h1 | h2
  · exact Or.inr (decide_eq_true h1)
  · exact Or.inl (decide_eq_true h2)

theorem postLess_eq_date_false (dt : SimpleDate) (p q : Page)
    (hp : decide (p.Date = dt) = true) (hq : decide (q.Date = dt) = true) :
    postLess p q = false := by
  unfold postLess dateAfter
  have hp' := of_decide_eq_true hp
  have hq' := of_decide_eq_true hq
  rw [hp', hq']
  exact decide_eq_false (dateLt_irrefl dt)

/-- A list is an initial segment of itself followed by anything. -/
theorem startSeg (l r : Bytes) : l <+: l ++ r := ⟨r, rfl⟩

/-- C1: on the spec's own example input (an empty metadata block), the
parser hits the unguarded yamlContent[0] access and panics, modelled as
`none`: the claimed guard is absent from the code. -/
theorem parseFrontmatter_empty_block_panics :
    parseFrontmatter ("---\n---\nbody".toList) = none := by decide

/-- C2 counterexample: sort.Slice is not a stable sort.  On thirteen blog
posts, twelve of which share a date, the assembler's output differs from
the input order of the tied posts (the pdqsort partition step reorders
them), so the claimed stability fails. -/
theorem buildBlogPosts_not_stable :
    buildBlogPosts tiePosts ≠ tieStable ∧
      buildBlogPosts tiePosts =
        [postPage 'm' ⟨2024, 1, 9⟩, postPage 'g' ⟨2024, 1, 5⟩, postPage 'c' ⟨2024, 1, 5⟩,
         postPage 'd' ⟨2024, 1, 5⟩, postPage 'e' ⟨2024, 1, 5⟩, postPage 'f' ⟨2024, 1, 5⟩,
         postPage 'a' ⟨2024, 1, 5⟩, postPage 'h' ⟨2024, 1, 5⟩, postPage 'i' ⟨2024, 1, 5⟩,
         postPage 'j' ⟨2024, 1, 5⟩, postPage 'k' ⟨2024, 1, 5⟩, postPage 'l' ⟨2024, 1, 5⟩,
         postPage 'b' ⟨2024, 1, 5⟩] := by
  constructor
  · decide
  · decide

/-- C2 amended: on lists of at most 12 posts sort.Slice runs a plain
insertion sort, so the output is a permutation of the input, sorted by
date descending (the zero date of absent dates compares as January 1 of
year 1), and stable (posts of any fixed date keep their input order); and
the documented three-post example sorts as claimed. -/
theorem buildBlogPosts_sorted_small :
    (∀ xs : List Page, xs.length ≤ 12 →
      List.Perm (sortSlice postLess blankPage xs) xs ∧
      List.Pairwise (fun p q => postLess q p = false) (sortSlice postLess blankPage xs) ∧
      ∀ dt : SimpleDate,
        (sortSlice postLess blankPage xs).filter (fun p => decide (p.Date = dt)) =
          xs.filter (fun p => decide (p.Date = dt))) ∧
    buildBlogPosts examplePosts =
      [postPage 'c' ⟨2025, 6, 1⟩, postPage 'a' ⟨2024, 1, 1⟩, postPage 'b' zeroDate] := by
  constructor
  · intro xs h
    rw [sortSlice_small postLess blankPage xs h]
    refine ⟨funSort_perm postLess xs,
      funSort_pairwise postLess postLess_asymm postLess_negtrans xs, ?_⟩
    intro dt
    exact funSort_filter postLess (fun p => decide (p.Date = dt))
      (postLess_eq_date_false dt) xs
  · decide

/-- C2 witness: the guarantees instantiated on the documented three-post
example list. -/
theorem buildBlogPosts_sorted_small_witness :
    List.Perm (sortSlice postLess blankPage examplePosts) examplePosts ∧
      List.Pairwise (fun p q => postLess q p = false)
        (sortSlice postLess blankPage examplePosts) ∧
      (sortSlice postLess blankPage examplePosts).filter
          (fun p => decide (p.Date = zeroDate)) =
        examplePosts.filter (fun p => decide (p.Date = zeroDate)) :=
  ⟨(buildBlogPosts_sorted_small.1 examplePosts (by decide)).1,
   (buildBlogPosts_sorted_small.1 examplePosts (by decide)).2.1,
   (buildBlogPosts_sorted_small.1 examplePosts (by decide)).2.2 zeroDate⟩

/-- C3 counterexample: the home test is a bare suffix match on
"index.md", so a page under the blog directory (and even a file named
reindex.md) is classified as the home page although its path is not the
"index" file at the content root. -/
theorem classifyHome_not_root_only :
    classifyHome [blogIndexPage] = some blogIndexPage ∧
      blogIndexPage.Path ≠ ("content/index.md".toList) ∧
      classifyHome [reindexPage] = some reindexPage ∧
      reindexPage.Path ≠ ("content/index.md".toList) := by decide

/-- Fold-invariant helper for classifyHome. -/
theorem classifyHome_fold_inv :
    ∀ (pages : List Page) (acc : Option Page) (p : Page),
      pages.foldl (fun a q => if goHasSuffix q.Path indexMdSuffix then some q else a) acc =
        some p →
      (goHasSuffix p.Path indexMdSuffix = true ∧ p ∈ pages) ∨ acc = some p := by
  intro pages
  induction pages with
  | nil => intro acc p h; exact Or.inr h
  | cons q pages' ih =>
    intro acc p h
    rcases ih _ p h with h1 | h2
    · exact Or.inl ⟨h1.1, List.mem_cons_of_mem q h1.2⟩
    · have h2' : (if goHasSuffix q.Path indexMdSuffix then some q else acc) = some p := h2
      by_cases hq : goHasSuffix q.Path indexMdSuffix = true
      · rw [if_pos hq] at h2'
        injection h2' with h2'
        exact Or.inl ⟨h2' ▸ hq, h2' ▸ List.mem_cons_self q pages'⟩
      · rw [if_neg hq] at h2'
        exact Or.inr h2' 

/-- C3 amended: the page classified as home is the last page in load
order whose source path merely ends in "index.md" (wherever it lives in
the tree); when one exists its URL is overridden to the fixed
"/index.html". -/
theorem classifyHome_last_suffix_match :
    (∀ (pages : List Page) (p : Page), goHasSuffix p.Path indexMdSuffix = true →
      classifyHome (pages ++ [p]) = some p) ∧
    (∀ (pages : List Page) (p : Page), goHasSuffix p.Path indexMdSuffix = false →
      classifyHome (pages ++ [p]) = classifyHome pages) ∧
    (∀ pages : List Page,
      buildHomePage pages = (classifyHome pages).map (fun q => setURL q rootIndexURL)) ∧
    (∀ (pages : List Page) (p : Page), classifyHome pages = some p →
      goHasSuffix p.Path indexMdSuffix = true ∧ p ∈ pages) := by
  refine ⟨?_, ?_, fun pages => rfl, ?_⟩
  · intro pages p hp
    unfold classifyHome
    rw [List.foldl_append]
    simp [hp]
  · intro pages p hp
    unfold classifyHome
    rw [List.foldl_append]
    simp [hp]
  · intro pages p h
    rcases classifyHome_fold_inv pages none p h with h1 | h2
    · exact h1
    · exact absurd h2 (by simp)

/-- C3 witness: the amended rule instantiated at the root index page. -/
theorem classifyHome_last_suffix_match_witness :
    classifyHome ([] ++ [rootIndexPage]) = some rootIndexPage ∧
      buildHomePage [rootIndexPage] =
        (classifyHome [rootIndexPage]).map (fun q => setURL q rootIndexURL) :=
  ⟨classifyHome_last_suffix_match.1 [] rootIndexPage (by decide),
   classifyHome_last_suffix_match.2.2.1 [rootIndexPage]⟩

/-- C4: whenever a well-delimited metadata block is present but its
key-value text fails to decode, parseFrontmatter yields the empty
frontmatter (both fields empty) and still returns the body after the
closing delimiter: a decode failure never aborts the file. -/
theorem parseFrontmatter_decode_failure :
    ∀ (header body : Bytes),
      bytesIndex ('\n' :: (header ++ closeDelim ++ '\n' :: body)) closeDelim =
        some (header.length + 1) →
      yamlDecode header = none →
      parseFrontmatter (fmDelim ++ '\n' :: (header ++ closeDelim ++ '\n' :: body)) =
        some (emptyFm, body) := by
  intro header body hidx hdec
  have hpre : goHasPrefix (fmDelim ++ '\n' :: (header ++ closeDelim ++ '\n' :: body))
      fmDelim = true :=
    decide_eq_true (startSeg fmDelim _)
  have hdrop : (fmDelim ++ '\n' :: (header ++ closeDelim ++ '\n' :: body)).drop 3 =
      '\n' :: (header ++ closeDelim ++ '\n' :: body) :=
    List.drop_left' rfl
  have htake : ('\n' :: (header ++ closeDelim ++ '\n' :: body)).take (header.length + 1) =
      '\n' :: header := by
    have h1 : '\n' :: (header ++ closeDelim ++ '\n' :: body) =
        ('\n' :: header) ++ (closeDelim ++ '\n' :: body) := by simp
    rw [h1]
    exact List.take_left' (by simp)
  have hdropB : ('\n' :: (header ++ closeDelim ++ '\n' :: body)).drop
      (header.length + 1 + 4) = '\n' :: body := by
    have h1 : '\n' :: (header ++ closeDelim ++ '\n' :: body) =
        (('\n' :: header) ++ closeDelim) ++ ('\n' :: body) := by simp
    rw [h1]
    refine List.drop_left' ?_
    simp [closeDelim]
  simp only [parseFrontmatter, hpre, Bool.not_true, hdrop, hidx, htake, hdropB, hdec]
  simp [stripLeadNL, hdec]

/-- C4 witness: a block consisting of one colon-free line fails to
decode; the file still parses with empty fields and the body intact. -/
theorem parseFrontmatter_decode_failure_witness :
    parseFrontmatter
        (fmDelim ++ '\n' :: (("notacolonline".toList) ++ closeDelim ++ '\n' :: ("body".toList))) =
      some (emptyFm, ("body".toList)) :=
  parseFrontmatter_decode_failure ("notacolonline".toList) ("body".toList)
    (by decide) (by decide)

/-- C5 counterexample: discovery matches the extension case-insensitively
but pathToURL trims ".md" case-sensitively, so for content/a.MD the
extension is not replaced: the code yields /a.MD.html, not /a.html. -/
theorem pathToURL_uppercase_not_replaced :
    mdMatch upperMdPath = true ∧
      pathToURL upperMdPath ≠ specPathToURL upperMdPath ∧
      pathToURL upperMdPath = ("/a.MD.html".toList) := by decide

/-- strings.TrimPrefix removes an actually-present leading part. -/
theorem goTrimStart_append (l r : Bytes) : goTrimStart (l ++ r) l = r := by
  unfold goTrimStart
  rw [if_pos (startSeg l r), List.drop_left]

/-- strings.TrimSuffix removes an actually-present trailing part. -/
theorem goTrimEnd_append (l r : Bytes) : goTrimEnd (l ++ r) r = l := by
  unfold goTrimEnd
  rw [if_pos (List.suffix_append l r)]
  have h : (l ++ r).length - r.length = l.length := by simp
  rw [h, List.take_left]

/-- C5 amended: pathToURL is a pure function; on paths of the form
content + stem + ".md" (lowercase extension) it strips the root and swaps
the extension for ".html"; every result ends in ".html"; and stripping
the root prefix before applying it does not change the result. -/
theorem pathToURL_spec :
    (∀ stem : Bytes, pathToURL (contentRoot ++ stem ++ mdExt) = stem ++ htmlExt) ∧
    (∀ p : Bytes, goHasSuffix (pathToURL p) htmlExt = true) ∧
    (∀ stem : Bytes, ¬ (contentRoot <+: stem) →
      pathToURL (goTrimStart (contentRoot ++ stem) contentRoot) =
        pathToURL (contentRoot ++ stem)) := by
  refine ⟨?_, ?_, ?_⟩
  · intro stem
    show goTrimEnd (goTrimStart (contentRoot ++ stem ++ mdExt) contentRoot) mdExt ++ htmlExt =
      stem ++ htmlExt
    rw [List.append_assoc, goTrimStart_append, goTrimEnd_append]
  · intro p
    show decide (htmlExt <:+ goTrimEnd (goTrimStart p contentRoot) mdExt ++ htmlExt) = true
    exact decide_eq_true (List.suffix_append _ htmlExt)
  · intro stem hstem
    have h1 : goTrimStart (contentRoot ++ stem) contentRoot = stem := goTrimStart_append _ _
    have h2 : goTrimStart stem contentRoot = stem := by
      unfold goTrimStart
      rw [if_neg hstem]
    show goTrimEnd (goTrimStart (goTrimStart (contentRoot ++ stem) contentRoot) contentRoot)
        mdExt ++ htmlExt =
      goTrimEnd (goTrimStart (contentRoot ++ stem) contentRoot) mdExt ++ htmlExt
    rw [h1, h2]

/-- C5 witness: the amended statements at the stem "/a". -/
theorem pathToURL_spec_witness :
    pathToURL (contentRoot ++ ("/a".toList) ++ mdExt) = ("/a".toList) ++ htmlExt ∧
      goHasSuffix (pathToURL upperMdPath) htmlExt = true ∧
      pathToURL (goTrimStart (contentRoot ++ ("/a".toList)) contentRoot) =
        pathToURL (contentRoot ++ ("/a".toList)) :=
  ⟨pathToURL_spec.1 ("/a".toList), pathToURL_spec.2.1 upperMdPath,
   pathToURL_spec.2.2 ("/a".toList) (by decide)⟩

/-- C6: an opening delimiter with no closing "newline plus delimiter"
anywhere after it returns empty metadata and the original input bytes,
unclosed delimiter included, as the body. -/
theorem parseFrontmatter_no_close :
    ∀ content : Bytes, goHasPrefix content fmDelim = true →
      bytesIndex (content.drop 3) closeDelim = none →
      parseFrontmatter content = some (emptyFm, content) := by
  intro content hpre hidx
  simp only [parseFrontmatter, hpre, Bool.not_true, hidx, ite_self]

/-- C6 witness: a file whose header never closes. -/
theorem parseFrontmatter_no_close_witness :
    parseFrontmatter ("---\ntitle: X".toList) =
      some (emptyFm, ("---\ntitle: X".toList)) :=
  parseFrontmatter_no_close ("---\ntitle: X".toList) (by decide) (by decide)

/-- C7: the documented metadata round-trip, through the header parser and
the page construction of the loader (with the Markdown engine as the
identity so the body is visible in the Content field): title Hello World,
date 2025-01-17, body exactly "Body text". -/
theorem parseFrontmatter_roundtrip :
    parseFrontmatter ("---\ntitle: Hello World\ndate: 2025-01-17\n---\nBody text".toList) =
      some (⟨("Hello World".toList), ("2025-01-17".toList)⟩, ("Body text".toList)) ∧
      mkPage (fun b => b) ("content/blog/hello.md".toList)
          ("---\ntitle: Hello World\ndate: 2025-01-17\n---\nBody text".toList) =
        some ⟨("content/blog/hello.md".toList), ("/blog/hello.html".toList),
          ("Hello World".toList), ⟨2025, 1, 17⟩, ("Body text".toList)⟩ := by
  constructor
  · decide
  · decide

/-- C8: a page whose metadata date is absent or fails to parse as
YYYY-MM-DD is constructed with the zero date and no error: the loader
never fails because of a bad date. -/
theorem mkPage_bad_date_zero :
    ∀ (convert : Bytes → Bytes) (file content : Bytes) (fm : Frontmatter) (md : Bytes),
      parseFrontmatter content = some (fm, md) →
      (fm.date = [] ∨ parseDate fm.date = none) →
      (mkPage convert file content).map Page.Date = some zeroDate := by
  intro convert file content fm md hparse hdate
  unfold mkPage
  rw [hparse]
  simp only [Option.map_map, Option.map_some]
  rcases hdate with h | h
  · simp [h]
  · by_cases he : fm.date = []
    · simp [he]
    · simp [he, h]

/-- C8 witness: a date that does not parse yields the zero date. -/
theorem mkPage_bad_date_zero_witness :
    (mkPage (fun b => b) ("content/blog/x.md".toList)
        ("---\ndate: 17 Jan\n---\nhi".toList)).map Page.Date = some zeroDate :=
  mkPage_bad_date_zero (fun b => b) ("content/blog/x.md".toList)
    ("---\ndate: 17 Jan\n---\nhi".toList) ⟨[], ("17 Jan".toList)⟩ ("hi".toList)
    (by decide) (Or.inr (by decide))

/-- Walking sibling lists distributes over append. -/
theorem walkList_append (parent : Bytes) :
    ∀ l1 l2 : List FsEntry,
      walkList parent (l1 ++ l2) =
        ((walkList parent l1).1 ++ (walkList parent l2).1,
         (walkList parent l1).2 ++ (walkList parent l2).2) := by
  intro l1 l2
  induction l1 with
  | nil => simp [walkList]
  | cons e es ih =>
    simp only [List.cons_append, walkList]
    simp [ih, List.append_assoc]

/-- C9: an unreadable directory entry anywhere among the walked entries
is only warned about: the walk continues, returns no error, and the
markdown files found in all other entries are returned unchanged and in
walk order. -/
theorem findMarkdownFiles_skips_unreadable :
    ∀ (root nm : Bytes) (cs : List FsEntry) (c1 c2 : List FsEntry),
      findMarkdownFiles root true (c1 ++ FsEntry.dir nm false cs :: c2) =
        ((findMarkdownFiles root true c1).1 ++ (findMarkdownFiles root true c2).1,
         (findMarkdownFiles root true c1).2 ++
           (root ++ '/' :: nm) :: (findMarkdownFiles root true c2).2) := by
  intro root nm cs c1 c2
  show walkList root (c1 ++ FsEntry.dir nm false cs :: c2) =
    ((walkList root c1).1 ++ (walkList root c2).1,
     (walkList root c1).2 ++ (root ++ '/' :: nm) :: (walkList root c2).2)
  rw [walkList_append]
  have hd : walkList root (FsEntry.dir nm false cs :: c2) =
      ((walkList root c2).1, (root ++ '/' :: nm) :: (walkList root c2).2) := by
    simp [walkList, walkEntry]
  rw [hd]

/-- C9 witness: one readable file, one unreadable directory, one more
readable file. -/
theorem findMarkdownFiles_skips_unreadable_witness :
    findMarkdownFiles ("content".toList) true
        ([FsEntry.file ("a.md".toList)] ++
          FsEntry.dir ("locked".toList) false [] :: [FsEntry.file ("b.md".toList)]) =
      ((findMarkdownFiles ("content".toList) true [FsEntry.file ("a.md".toList)]).1 ++
         (findMarkdownFiles ("content".toList) true [FsEntry.file ("b.md".toList)]).1,
       (findMarkdownFiles ("content".toList) true [FsEntry.file ("a.md".toList)]).2 ++
         (("content".toList) ++ '/' :: ("locked".toList)) ::
           (findMarkdownFiles ("content".toList) true [FsEntry.file ("b.md".toList)]).2) :=
  findMarkdownFiles_skips_unreadable ("content".toList) ("locked".toList) [] _ _

/-- C10: when the stylesheet read succeeds, the copy step reports the
copy and is never fatal regardless of whether the write succeeds (the
os.WriteFile error is discarded), while a failing render step returns an
error that build treats as fatal. -/
theorem copyStatic_ignores_write_failure :
    (∀ (content : Bytes) (writeOk : Bool),
      copyStatic (some content) writeOk = ⟨true, true, false⟩) ∧
    renderPage true true false = none :=
  ⟨fun _ _ => rfl, rfl⟩

/-- C10 witness: the copy outcome at a concrete failing write. -/
theorem copyStatic_ignores_write_failure_witness :
    copyStatic (some []) false = ⟨true, true, false⟩ :=
  copyStatic_ignores_write_failure.1 [] false

end Slate
